import Mathlib

/-!
Verification of the options pricing-and-signal engine
(`src/Python/options_simulator.py`).

The development embeds, over the real numbers:
* the `BlackScholesModel` class (`d1`, `d2`, `call_price`, `put_price`),
  with scipy's `norm.cdf` modelled as the standard normal CDF `normCdf`;
* the numeric failure behaviour of the same formulas under Python
  semantics (`ZeroDivisionError` for division by zero, `ValueError`
  for `math.log`/`math.sqrt` domain errors), via `Except`;
* the `run_simulation` pipeline acting on a pandas-like data frame:
  `ewm(span=w).mean()` (pandas default `adjust=True` weighting),
  the column assignments for `"9EMA"`/`"200EMA"`, and the signal
  assignment that reads the absent `"20EMA"` column;
* the strike sweep `[current_price * (1 + i / 10) for i in range(-3, 4)]`.

Analytic groundwork: the standard normal pdf and CDF, the CDF's
derivative, symmetry `normCdf (-x) = 1 - normCdf x`, and monotonicity of
the Mills-type ratio `normCdf x / stdNormalPdf x`, which yield put-call
parity, price bounds and strike monotonicity for the Black-Scholes
formulas.
-/

open MeasureTheory Set intervalIntegral Filter

/-- Density of the standard normal distribution, the pdf underlying
scipy's `norm.cdf`. -/
noncomputable def stdNormalPdf (x : ℝ) : ℝ :=
  (Real.sqrt (2 * Real.pi))⁻¹ * Real.exp (-(x ^ 2) / 2)

/-- `stdNormalPdf` is the Gaussian pdf with mean `0` and variance `1`. -/
lemma stdNormalPdf_eq_gaussian :
    stdNormalPdf = ProbabilityTheory.gaussianPDFReal 0 1 := by
  funext x
  simp [stdNormalPdf, ProbabilityTheory.gaussianPDFReal]

lemma integrable_stdNormalPdf : Integrable stdNormalPdf := by
  rw [stdNormalPdf_eq_gaussian]
  exact ProbabilityTheory.integrable_gaussianPDFReal 0 1

lemma integral_stdNormalPdf : ∫ x, stdNormalPdf x = 1 := by
  rw [stdNormalPdf_eq_gaussian]
  exact ProbabilityTheory.integral_gaussianPDFReal_eq_one 0 one_ne_zero

lemma continuous_stdNormalPdf : Continuous stdNormalPdf := by
  unfold stdNormalPdf
  fun_prop

lemma stdNormalPdf_pos (x : ℝ) : 0 < stdNormalPdf x := by
  unfold stdNormalPdf
  positivity

lemma stdNormalPdf_neg (x : ℝ) : stdNormalPdf (-x) = stdNormalPdf x := by
  simp [stdNormalPdf]

/-- Standard normal cumulative distribution function: the model of
scipy's `norm.cdf`. -/
noncomputable def normCdf (x : ℝ) : ℝ := ∫ t in Iic x, stdNormalPdf t

lemma normCdf_sub_normCdf (a b : ℝ) :
    normCdf b - normCdf a = ∫ t in a..b, stdNormalPdf t :=
  integral_Iic_sub_Iic integrable_stdNormalPdf.integrableOn
    integrable_stdNormalPdf.integrableOn

lemma hasDerivAt_normCdf (x : ℝ) : HasDerivAt normCdf (stdNormalPdf x) x := by
  have h : HasDerivAt (fun u => normCdf 0 + ∫ t in (0:ℝ)..u, stdNormalPdf t)
      (stdNormalPdf x) x := by
    refine HasDerivAt.const_add _ ?_
    refine integral_hasDerivAt_right
      integrable_stdNormalPdf.intervalIntegrable
      ?_ continuous_stdNormalPdf.continuousAt
    exact continuous_stdNormalPdf.stronglyMeasurableAtFilter _ _
  have heq : (fun u => normCdf 0 + ∫ t in (0:ℝ)..u, stdNormalPdf t) = normCdf := by
    funext u
    rw [← normCdf_sub_normCdf 0 u]
    ring
  rwa [heq] at h

lemma normCdf_nonneg (x : ℝ) : 0 ≤ normCdf x :=
  setIntegral_nonneg measurableSet_Iic (fun t _ => (stdNormalPdf_pos t).le)

lemma normCdf_le_one (x : ℝ) : normCdf x ≤ 1 := by
  rw [← integral_stdNormalPdf]
  exact setIntegral_le_integral integrable_stdNormalPdf
    (Filter.Eventually.of_forall (fun t => (stdNormalPdf_pos t).le))

lemma normCdf_pos (x : ℝ) : 0 < normCdf x := by
  have h1 : normCdf x - normCdf (x - 1) = ∫ t in (x-1)..x, stdNormalPdf t :=
    normCdf_sub_normCdf _ _
  have h2 : 0 < ∫ t in (x-1)..x, stdNormalPdf t :=
    intervalIntegral_pos_of_pos_on
      integrable_stdNormalPdf.intervalIntegrable
      (fun t _ => stdNormalPdf_pos t) (by linarith)
  have h3 := normCdf_nonneg (x - 1)
  linarith

/-- Symmetry of the standard normal CDF. -/
lemma normCdf_neg_eq (x : ℝ) : normCdf (-x) = 1 - normCdf x := by
  have h1 : normCdf (-x) = ∫ t in Iic (-x), stdNormalPdf (-t) := by
    unfold normCdf
    congr 1
    funext t
    rw [stdNormalPdf_neg]
  rw [h1, integral_comp_neg_Iic, neg_neg]
  have h2 : normCdf x + ∫ t in Ioi x, stdNormalPdf t = 1 := by
    unfold normCdf
    rw [integral_Iic_add_Ioi integrable_stdNormalPdf.integrableOn
      integrable_stdNormalPdf.integrableOn]
    exact integral_stdNormalPdf
  linarith

lemma normCdf_lt_one (x : ℝ) : normCdf x < 1 := by
  have h := normCdf_pos (-x)
  have h2 := normCdf_neg_eq x
  linarith

lemma monotone_normCdf : Monotone normCdf := by
  refine monotone_of_deriv_nonneg (fun x => (hasDerivAt_normCdf x).differentiableAt) ?_
  intro x
  rw [(hasDerivAt_normCdf x).deriv]
  exact (stdNormalPdf_pos x).le

lemma hasDerivAt_stdNormalPdf (x : ℝ) :
    HasDerivAt stdNormalPdf (-x * stdNormalPdf x) x := by
  have h1 : HasDerivAt (fun t : ℝ => -(t ^ 2) / 2) (-x) x := by
    have h0 : HasDerivAt (fun t : ℝ => t ^ 2) (2 * x) x := by
      simpa using (hasDerivAt_pow 2 x)
    have h2 := (h0.neg).div_const 2
    convert h2 using 1
    ring
  have h3 := (h1.exp).const_mul (Real.sqrt (2 * Real.pi))⁻¹
  convert h3 using 1
  unfold stdNormalPdf
  ring

lemma tendsto_sq_atBot_atTop : Tendsto (fun t : ℝ => t ^ 2) atBot atTop := by
  have h := (tendsto_pow_atTop (two_ne_zero) : Tendsto (fun x : ℝ => x ^ 2) atTop atTop)
  have h2 := h.comp tendsto_neg_atBot_atTop
  refine h2.congr ?_
  intro t
  simp [Function.comp, neg_sq]

lemma tendsto_stdNormalPdf_atBot : Tendsto stdNormalPdf atBot (nhds 0) := by
  have h1 : Tendsto (fun t : ℝ => -(t ^ 2) / 2) atBot atBot := by
    have hneg := tendsto_neg_atTop_atBot.comp tendsto_sq_atBot_atTop
    have h2 := hneg.atBot_div_const (by norm_num : (0:ℝ) < 2)
    refine h2.congr ?_
    intro t
    simp [Function.comp]
  have h2 : Tendsto (fun t : ℝ => Real.exp (-(t ^ 2) / 2)) atBot (nhds 0) :=
    Real.tendsto_exp_atBot.comp h1
  have h3 := h2.const_mul (Real.sqrt (2 * Real.pi))⁻¹
  rw [mul_zero] at h3
  exact h3

lemma integrable_id_mul_stdNormalPdf :
    Integrable (fun t : ℝ => t * stdNormalPdf t) := by
  have h := integrable_rpow_mul_exp_neg_mul_sq (b := (1/2 : ℝ)) (by norm_num)
    (s := 1) (by norm_num)
  have h2 : Integrable (fun t : ℝ => t * Real.exp (-(t ^ 2) / 2)) := by
    refine h.congr ?_
    filter_upwards with t
    rw [Real.rpow_one]
    ring_nf
  have h3 := h2.const_mul (Real.sqrt (2 * Real.pi))⁻¹
  refine h3.congr ?_
  filter_upwards with t
  unfold stdNormalPdf
  ring

lemma integrable_neg_mul_stdNormalPdf :
    Integrable (fun t : ℝ => -t * stdNormalPdf t) := by
  refine integrable_id_mul_stdNormalPdf.neg.congr ?_
  filter_upwards with t
  simp only [Pi.neg_apply]
  ring

lemma integral_neg_mul_stdNormalPdf (x : ℝ) :
    ∫ t in Iic x, -t * stdNormalPdf t = stdNormalPdf x := by
  have hderiv : ∀ t ∈ Iic x, HasDerivAt stdNormalPdf (-t * stdNormalPdf t) t :=
    fun t _ => hasDerivAt_stdNormalPdf t
  have h := integral_Iic_of_hasDerivAt_of_tendsto' hderiv
    integrable_neg_mul_stdNormalPdf.integrableOn tendsto_stdNormalPdf_atBot
  simpa using h

/-- Mills-type inequality: `stdNormalPdf x + x * normCdf x` is nonnegative.
For `x < 0` this is the classical bound `normCdf x ≤ stdNormalPdf x / (-x)`. -/
lemma mills_nonneg (x : ℝ) : 0 ≤ stdNormalPdf x + x * normCdf x := by
  rcases le_or_lt 0 x with hx | hx
  · have h1 := stdNormalPdf_pos x
    have h2 := normCdf_nonneg x
    nlinarith
  · have key : -x * normCdf x ≤ stdNormalPdf x := by
      have h1 : -x * normCdf x = ∫ t in Iic x, -x * stdNormalPdf t := by
        unfold normCdf
        rw [integral_mul_left]
      rw [h1, ← integral_neg_mul_stdNormalPdf x]
      refine setIntegral_mono_on ?_ ?_ measurableSet_Iic ?_
      · exact (integrable_stdNormalPdf.const_mul (-x)).integrableOn
      · exact integrable_neg_mul_stdNormalPdf.integrableOn
      · intro t ht
        have h2 : -x ≤ -t := by
          simp only [mem_Iic] at ht
          linarith
        have h3 := stdNormalPdf_pos t
        nlinarith
    linarith

/-- The ratio `normCdf / stdNormalPdf` (reciprocal Mills ratio shifted to
the left tail) is monotone. -/
noncomputable def millsRatio (x : ℝ) : ℝ := normCdf x / stdNormalPdf x

lemma hasDerivAt_millsRatio (x : ℝ) :
    HasDerivAt millsRatio
      ((stdNormalPdf x * stdNormalPdf x - normCdf x * (-x * stdNormalPdf x)) /
        stdNormalPdf x ^ 2) x :=
  (hasDerivAt_normCdf x).div (hasDerivAt_stdNormalPdf x) (stdNormalPdf_pos x).ne'

lemma monotone_millsRatio : Monotone millsRatio := by
  refine monotone_of_deriv_nonneg
    (fun x => (hasDerivAt_millsRatio x).differentiableAt) ?_
  intro x
  rw [(hasDerivAt_millsRatio x).deriv]
  have h1 := stdNormalPdf_pos x
  have h2 := mills_nonneg x
  have hnum : 0 ≤ stdNormalPdf x * stdNormalPdf x - normCdf x * (-x * stdNormalPdf x) := by
    nlinarith
  positivity

/-- Cross-multiplied form of the monotonicity of `millsRatio`. -/
lemma normCdf_mul_pdf_le (a b : ℝ) (hab : a ≤ b) :
    normCdf a * stdNormalPdf b ≤ normCdf b * stdNormalPdf a := by
  have h := monotone_millsRatio hab
  unfold millsRatio at h
  rw [div_le_div_iff₀ (stdNormalPdf_pos a) (stdNormalPdf_pos b)] at h
  linarith

namespace BlackScholesModel

/-- `BlackScholesModel.d1`:
`(math.log(S / K) + (r + 0.5 * sigma**2) * T) / (sigma * math.sqrt(T))`. -/
noncomputable def d1 (S K T r sigma : ℝ) : ℝ :=
  (Real.log (S / K) + (r + 0.5 * sigma ^ 2) * T) / (sigma * Real.sqrt T)

/-- `BlackScholesModel.d2`: `d1 - sigma * math.sqrt(T)`. -/
noncomputable def d2 (S K T r sigma : ℝ) : ℝ :=
  d1 S K T r sigma - sigma * Real.sqrt T

/-- `BlackScholesModel.call_price`:
`S * norm.cdf(d1) - K * math.exp(-r * T) * norm.cdf(d2)`. -/
noncomputable def call_price (S K T r sigma : ℝ) : ℝ :=
  S * normCdf (d1 S K T r sigma) -
    K * Real.exp (-r * T) * normCdf (d2 S K T r sigma)

/-- `BlackScholesModel.put_price`:
`K * math.exp(-r * T) * norm.cdf(-d2) - S * norm.cdf(-d1)`. -/
noncomputable def put_price (S K T r sigma : ℝ) : ℝ :=
  K * Real.exp (-r * T) * normCdf (-(d2 S K T r sigma)) -
    S * normCdf (-(d1 S K T r sigma))

lemma d1_mul (S K T r sigma : ℝ) (hT : 0 < T) (hsig : 0 < sigma) :
    d1 S K T r sigma * (sigma * Real.sqrt T) =
      Real.log (S / K) + (r + 0.5 * sigma ^ 2) * T := by
  have hv : sigma * Real.sqrt T ≠ 0 := by
    have := Real.sqrt_pos.mpr hT
    positivity
  rw [d1, div_mul_cancel₀ _ hv]

/-- The Gaussian density identity behind the Black-Scholes greeks:
`S * stdNormalPdf d1 = K * exp (-r * T) * stdNormalPdf d2`. -/
lemma pdf_identity (S K T r sigma : ℝ) (hS : 0 < S) (hK : 0 < K)
    (hT : 0 < T) (hsig : 0 < sigma) :
    S * stdNormalPdf (d1 S K T r sigma) =
      K * Real.exp (-r * T) * stdNormalPdf (d2 S K T r sigma) := by
  have hv2 : (sigma * Real.sqrt T) ^ 2 = sigma ^ 2 * T := by
    rw [mul_pow, Real.sq_sqrt hT.le]
  have hd1 := d1_mul S K T r sigma hT hsig
  have hlog : Real.log (S / K) = Real.log S - Real.log K :=
    Real.log_div hS.ne' hK.ne'
  unfold stdNormalPdf
  rw [d2]
  set a := d1 S K T r sigma with ha
  set v := sigma * Real.sqrt T with hvdef
  have hexpand : S * ((Real.sqrt (2 * Real.pi))⁻¹ * Real.exp (-(a ^ 2) / 2)) =
      (Real.sqrt (2 * Real.pi))⁻¹ * Real.exp (Real.log S + -(a ^ 2) / 2) := by
    rw [Real.exp_add, Real.exp_log hS]
    ring
  have hexpand2 : K * Real.exp (-r * T) *
      ((Real.sqrt (2 * Real.pi))⁻¹ * Real.exp (-((a - v) ^ 2) / 2)) =
      (Real.sqrt (2 * Real.pi))⁻¹ *
        Real.exp (Real.log K + -r * T + -((a - v) ^ 2) / 2) := by
    rw [Real.exp_add, Real.exp_add, Real.exp_log hK]
    ring
  rw [hexpand, hexpand2]
  congr 1
  apply Real.exp_eq_exp.mpr
  have key : a * v = Real.log S - Real.log K + (r + 0.5 * sigma ^ 2) * T := by
    rw [hd1, hlog]
  nlinarith [key, hv2]

/-- Put-call parity over the reals: `call - put = S - K * exp (-r * T)`. -/
lemma parity (S K T r sigma : ℝ) :
    call_price S K T r sigma - put_price S K T r sigma =
      S - K * Real.exp (-r * T) := by
  unfold call_price put_price
  rw [normCdf_neg_eq (d1 S K T r sigma), normCdf_neg_eq (d2 S K T r sigma)]
  ring

lemma hasDerivAt_d1_strike (S T r sigma : ℝ) (hS : 0 < S) (hT : 0 < T)
    (hsig : 0 < sigma) {K : ℝ} (hK : 0 < K) :
    HasDerivAt (fun k => d1 S k T r sigma)
      (-(1 / (K * (sigma * Real.sqrt T)))) K := by
  have hv : (0:ℝ) < sigma * Real.sqrt T := by
    have := Real.sqrt_pos.mpr hT
    positivity
  have h1 : HasDerivAt
      (fun k : ℝ => Real.log S - Real.log k + (r + 0.5 * sigma ^ 2) * T)
      (-(1/K)) K := by
    have hlog : HasDerivAt Real.log K⁻¹ K := Real.hasDerivAt_log hK.ne'
    have h2 := (hlog.const_sub (Real.log S)).add_const ((r + 0.5 * sigma ^ 2) * T)
    convert h2 using 1
    rw [one_div]
  have h3 := h1.div_const (sigma * Real.sqrt T)
  have h4 : (fun k : ℝ =>
      (Real.log S - Real.log k + (r + 0.5 * sigma ^ 2) * T) / (sigma * Real.sqrt T))
      =ᶠ[nhds K] (fun k : ℝ => d1 S k T r sigma) := by
    filter_upwards [Ioi_mem_nhds hK] with k hk
    rw [d1, Real.log_div hS.ne' (ne_of_gt hk)]
  have h5 := h3.congr_of_eventuallyEq h4.symm
  convert h5 using 1
  field_simp

lemma hasDerivAt_d2_strike (S T r sigma : ℝ) (hS : 0 < S) (hT : 0 < T)
    (hsig : 0 < sigma) {K : ℝ} (hK : 0 < K) :
    HasDerivAt (fun k => d2 S k T r sigma)
      (-(1 / (K * (sigma * Real.sqrt T)))) K := by
  have h := (hasDerivAt_d1_strike S T r sigma hS hT hsig hK).sub_const
    (sigma * Real.sqrt T)
  exact h

lemma hasDerivAt_call_strike (S T r sigma : ℝ) (hS : 0 < S) (hT : 0 < T)
    (hsig : 0 < sigma) {K : ℝ} (hK : 0 < K) :
    HasDerivAt (fun k => call_price S k T r sigma)
      (-(Real.exp (-r * T) * normCdf (d2 S K T r sigma))) K := by
  have hd1 := hasDerivAt_d1_strike S T r sigma hS hT hsig hK
  have hd2 := hasDerivAt_d2_strike S T r sigma hS hT hsig hK
  have hN1 := (hasDerivAt_normCdf (d1 S K T r sigma)).comp K hd1
  have hN2 := (hasDerivAt_normCdf (d2 S K T r sigma)).comp K hd2
  have hterm1 := hN1.const_mul S
  have hlin : HasDerivAt (fun k : ℝ => k * Real.exp (-r * T))
      (Real.exp (-r * T)) K := by
    simpa using (hasDerivAt_id K).mul_const (Real.exp (-r * T))
  have hterm2 := hlin.mul hN2
  have h := hterm1.sub hterm2
  show HasDerivAt (fun k => S * normCdf (d1 S k T r sigma) -
    k * Real.exp (-r * T) * normCdf (d2 S k T r sigma)) _ K
  convert h using 1
  simp only [Function.comp_apply]
  have hident := pdf_identity S K T r sigma hS hK hT hsig
  set w := -(1 / (K * (sigma * Real.sqrt T))) with hwdef
  clear_value w
  linear_combination (-w) * hident

lemma hasDerivAt_put_strike (S T r sigma : ℝ) (hS : 0 < S) (hT : 0 < T)
    (hsig : 0 < sigma) {K : ℝ} (hK : 0 < K) :
    HasDerivAt (fun k => put_price S k T r sigma)
      (Real.exp (-r * T) * normCdf (-(d2 S K T r sigma))) K := by
  have hd1 := hasDerivAt_d1_strike S T r sigma hS hT hsig hK
  have hd2 := hasDerivAt_d2_strike S T r sigma hS hT hsig hK
  have hN2 := (hasDerivAt_normCdf (-(d2 S K T r sigma))).comp K hd2.neg
  have hN1 := (hasDerivAt_normCdf (-(d1 S K T r sigma))).comp K hd1.neg
  have hlin : HasDerivAt (fun k : ℝ => k * Real.exp (-r * T))
      (Real.exp (-r * T)) K := by
    simpa using (hasDerivAt_id K).mul_const (Real.exp (-r * T))
  have hterm1 := hlin.mul hN2
  have hterm2 := hN1.const_mul S
  have h := hterm1.sub hterm2
  show HasDerivAt (fun k => k * Real.exp (-r * T) * normCdf (-(d2 S k T r sigma)) -
    S * normCdf (-(d1 S k T r sigma))) _ K
  convert h using 1
  simp only [Function.comp_apply]
  rw [stdNormalPdf_neg (d2 S K T r sigma), stdNormalPdf_neg (d1 S K T r sigma)]
  have hident := pdf_identity S K T r sigma hS hK hT hsig
  set w := -(1 / (K * (sigma * Real.sqrt T))) with hwdef
  clear_value w
  linear_combination (-w) * hident

lemma call_strictAntiOn (S T r sigma : ℝ) (hS : 0 < S) (hT : 0 < T)
    (hsig : 0 < sigma) :
    StrictAntiOn (fun k => call_price S k T r sigma) (Ioi 0) := by
  refine strictAntiOn_of_deriv_neg (convex_Ioi 0) ?_ ?_
  · intro K hK
    exact (hasDerivAt_call_strike S T r sigma hS hT hsig
      hK).differentiableAt.continuousAt.continuousWithinAt
  · intro K hK
    rw [interior_Ioi] at hK
    rw [(hasDerivAt_call_strike S T r sigma hS hT hsig hK).deriv]
    have h1 := normCdf_pos (d2 S K T r sigma)
    have h2 := Real.exp_pos (-r * T)
    nlinarith

lemma put_strictMonoOn (S T r sigma : ℝ) (hS : 0 < S) (hT : 0 < T)
    (hsig : 0 < sigma) :
    StrictMonoOn (fun k => put_price S k T r sigma) (Ioi 0) := by
  refine strictMonoOn_of_deriv_pos (convex_Ioi 0) ?_ ?_
  · intro K hK
    exact (hasDerivAt_put_strike S T r sigma hS hT hsig
      hK).differentiableAt.continuousAt.continuousWithinAt
  · intro K hK
    rw [interior_Ioi] at hK
    rw [(hasDerivAt_put_strike S T r sigma hS hT hsig hK).deriv]
    have h1 := normCdf_pos (-(d2 S K T r sigma))
    have h2 := Real.exp_pos (-r * T)
    positivity

lemma d2_le_d1 (S K T r sigma : ℝ) (hT : 0 < T) (hsig : 0 < sigma) :
    d2 S K T r sigma ≤ d1 S K T r sigma := by
  have hv : 0 < sigma * Real.sqrt T := by
    have := Real.sqrt_pos.mpr hT
    positivity
  rw [d2]
  linarith

lemma call_price_nonneg (S K T r sigma : ℝ) (hS : 0 < S) (hK : 0 < K)
    (hT : 0 < T) (hsig : 0 < sigma) : 0 ≤ call_price S K T r sigma := by
  have hd := d2_le_d1 S K T r sigma hT hsig
  have hm := normCdf_mul_pdf_le _ _ hd
  have hident := pdf_identity S K T r sigma hS hK hT hsig
  have hp1 := stdNormalPdf_pos (d1 S K T r sigma)
  have he := Real.exp_pos (-r * T)
  have h2 : K * Real.exp (-r * T) *
      (normCdf (d2 S K T r sigma) * stdNormalPdf (d1 S K T r sigma)) ≤
      K * Real.exp (-r * T) *
      (normCdf (d1 S K T r sigma) * stdNormalPdf (d2 S K T r sigma)) :=
    mul_le_mul_of_nonneg_left hm (by positivity)
  have h3 : K * Real.exp (-r * T) *
      (normCdf (d1 S K T r sigma) * stdNormalPdf (d2 S K T r sigma)) =
      S * normCdf (d1 S K T r sigma) * stdNormalPdf (d1 S K T r sigma) := by
    linear_combination normCdf (d1 S K T r sigma) * hident.symm
  have h4 : K * Real.exp (-r * T) * normCdf (d2 S K T r sigma) *
      stdNormalPdf (d1 S K T r sigma) ≤
      S * normCdf (d1 S K T r sigma) * stdNormalPdf (d1 S K T r sigma) := by
    nlinarith [h2, h3]
  have h5 := le_of_mul_le_mul_right h4 hp1
  unfold call_price
  linarith

lemma call_price_le_spot (S K T r sigma : ℝ) (hS : 0 < S) (hK : 0 < K)
    (hT : 0 < T) (hsig : 0 < sigma) : call_price S K T r sigma ≤ S := by
  unfold call_price
  have h1 := normCdf_le_one (d1 S K T r sigma)
  have h2 := normCdf_nonneg (d2 S K T r sigma)
  have he := Real.exp_pos (-r * T)
  nlinarith [mul_le_mul_of_nonneg_left h1 hS.le,
    mul_nonneg (mul_nonneg hK.le he.le) h2]

lemma put_price_nonneg (S K T r sigma : ℝ) (hS : 0 < S) (hK : 0 < K)
    (hT : 0 < T) (hsig : 0 < sigma) : 0 ≤ put_price S K T r sigma := by
  have hd := d2_le_d1 S K T r sigma hT hsig
  have hm := normCdf_mul_pdf_le (-(d1 S K T r sigma)) (-(d2 S K T r sigma))
    (by linarith)
  rw [stdNormalPdf_neg, stdNormalPdf_neg] at hm
  have hident := pdf_identity S K T r sigma hS hK hT hsig
  have hp1 := stdNormalPdf_pos (d1 S K T r sigma)
  have he := Real.exp_pos (-r * T)
  have h2 : K * Real.exp (-r * T) *
      (normCdf (-(d1 S K T r sigma)) * stdNormalPdf (d2 S K T r sigma)) ≤
      K * Real.exp (-r * T) *
      (normCdf (-(d2 S K T r sigma)) * stdNormalPdf (d1 S K T r sigma)) :=
    mul_le_mul_of_nonneg_left hm (by positivity)
  have h3 : K * Real.exp (-r * T) *
      (normCdf (-(d1 S K T r sigma)) * stdNormalPdf (d2 S K T r sigma)) =
      S * normCdf (-(d1 S K T r sigma)) * stdNormalPdf (d1 S K T r sigma) := by
    linear_combination normCdf (-(d1 S K T r sigma)) * hident.symm
  have h4 : S * normCdf (-(d1 S K T r sigma)) * stdNormalPdf (d1 S K T r sigma) ≤
      K * Real.exp (-r * T) * normCdf (-(d2 S K T r sigma)) *
        stdNormalPdf (d1 S K T r sigma) := by
    nlinarith [h2, h3]
  have h5 := le_of_mul_le_mul_right h4 hp1
  unfold put_price
  linarith

lemma put_price_le_discounted_strike (S K T r sigma : ℝ) (hS : 0 < S)
    (hK : 0 < K) (hT : 0 < T) (hsig : 0 < sigma) :
    put_price S K T r sigma ≤ K * Real.exp (-r * T) := by
  unfold put_price
  have h1 := normCdf_le_one (-(d2 S K T r sigma))
  have h2 := normCdf_nonneg (-(d1 S K T r sigma))
  have he := Real.exp_pos (-r * T)
  nlinarith [mul_le_mul_of_nonneg_left h1 (mul_nonneg hK.le he.le),
    mul_nonneg hS.le h2]

end BlackScholesModel

/-! ## Python numeric error semantics

`math.log` raises `ValueError` on non-positive input, `math.sqrt` raises
`ValueError` on negative input, and `/` raises `ZeroDivisionError` on a
zero denominator.  Column access `df["name"]` on an absent column raises
`KeyError`. -/

inductive PyErr where
  | zeroDivisionError : PyErr
  | valueError : PyErr
  | keyError : String → PyErr
deriving DecidableEq

@[simp] lemma exceptBind_ok {e a b : Type} (x : a) (f : a → Except e b) :
    (Except.ok x >>= f) = f x := rfl

@[simp] lemma exceptBind_error {e a b : Type} (err : e) (f : a → Except e b) :
    ((Except.error err : Except e a) >>= f) = Except.error err := rfl

/-- Python real division `x / y`. -/
noncomputable def pydiv (x y : ℝ) : Except PyErr ℝ :=
  if y = 0 then .error .zeroDivisionError else .ok (x / y)

/-- `math.log`. -/
noncomputable def pylog (x : ℝ) : Except PyErr ℝ :=
  if x ≤ 0 then .error .valueError else .ok (Real.log x)

/-- `math.sqrt`. -/
noncomputable def pysqrt (x : ℝ) : Except PyErr ℝ :=
  if x < 0 then .error .valueError else .ok (Real.sqrt x)

namespace BlackScholesModel

/-- `BlackScholesModel.d1` under Python error semantics, evaluated in the
source's order: `self.S / self.K`, then `math.log`, then `math.sqrt(self.T)`,
then the division by `self.sigma * math.sqrt(self.T)`. -/
noncomputable def d1E (S K T r sigma : ℝ) : Except PyErr ℝ := do
  let q ← pydiv S K
  let l ← pylog q
  let s ← pysqrt T
  pydiv (l + (r + 0.5 * sigma ^ 2) * T) (sigma * s)

/-- `BlackScholesModel.d2` under Python error semantics (`self.d1()` is
re-evaluated, then `sigma * math.sqrt(T)` is subtracted). -/
noncomputable def d2E (S K T r sigma : ℝ) : Except PyErr ℝ := do
  let a ← d1E S K T r sigma
  let s ← pysqrt T
  .ok (a - sigma * s)

/-- `BlackScholesModel.call_price` under Python error semantics. -/
noncomputable def call_priceE (S K T r sigma : ℝ) : Except PyErr ℝ := do
  let a ← d1E S K T r sigma
  let b ← d2E S K T r sigma
  .ok (S * normCdf a - K * Real.exp (-r * T) * normCdf b)

/-- `BlackScholesModel.put_price` under Python error semantics. -/
noncomputable def put_priceE (S K T r sigma : ℝ) : Except PyErr ℝ := do
  let a ← d1E S K T r sigma
  let b ← d2E S K T r sigma
  .ok (K * Real.exp (-r * T) * normCdf (-b) - S * normCdf (-a))

/-- The price operation: `call_price()` followed by `put_price()`, as
`run_simulation` invokes them. -/
noncomputable def priceE (S K T r sigma : ℝ) : Except PyErr (ℝ × ℝ) := do
  let c ← call_priceE S K T r sigma
  let p ← put_priceE S K T r sigma
  .ok (c, p)

end BlackScholesModel

namespace BlackScholesModel

lemma d1E_ok_of (S K T r sigma : ℝ) (hq : 0 < S / K) (hK : K ≠ 0)
    (hT : 0 ≤ T) (hden : sigma * Real.sqrt T ≠ 0) :
    d1E S K T r sigma = .ok (d1 S K T r sigma) := by
  rw [d1]
  simp only [d1E, pydiv, pylog, pysqrt, if_neg hK, exceptBind_ok,
    if_neg (not_le.mpr hq), if_neg (not_lt.mpr hT), if_neg hden]

lemma d2E_ok_of (S K T r sigma : ℝ) (hq : 0 < S / K) (hK : K ≠ 0)
    (hT : 0 ≤ T) (hden : sigma * Real.sqrt T ≠ 0) :
    d2E S K T r sigma = .ok (d2 S K T r sigma) := by
  rw [d2E, d1E_ok_of S K T r sigma hq hK hT hden]
  simp only [pysqrt, if_neg (not_lt.mpr hT), exceptBind_ok]
  rw [d2]

lemma priceE_ok_of (S K T r sigma : ℝ) (hq : 0 < S / K) (hK : K ≠ 0)
    (hT : 0 ≤ T) (hden : sigma * Real.sqrt T ≠ 0) :
    priceE S K T r sigma =
      .ok (call_price S K T r sigma, put_price S K T r sigma) := by
  rw [priceE, call_priceE, put_priceE,
    d1E_ok_of S K T r sigma hq hK hT hden, d2E_ok_of S K T r sigma hq hK hT hden]
  simp only [exceptBind_ok]
  rw [call_price, put_price]

lemma priceE_ok (S K T r sigma : ℝ) (hS : 0 < S) (hK : 0 < K) (hT : 0 < T)
    (hsig : sigma ≠ 0) :
    priceE S K T r sigma =
      .ok (call_price S K T r sigma, put_price S K T r sigma) :=
  priceE_ok_of S K T r sigma (div_pos hS hK) hK.ne' hT.le
    (mul_ne_zero hsig (Real.sqrt_pos.mpr hT).ne')

lemma d1E_err_strike_zero (S T r sigma : ℝ) :
    d1E S 0 T r sigma = .error .zeroDivisionError := by
  simp [d1E, pydiv]

lemma d1E_err_log (S K T r sigma : ℝ) (hq : S / K ≤ 0) (hK : K ≠ 0) :
    d1E S K T r sigma = .error .valueError := by
  simp [d1E, pydiv, pylog, hK, hq]

lemma d1E_err_sqrt (S K T r sigma : ℝ) (hS : 0 < S) (hK : 0 < K) (hT : T < 0) :
    d1E S K T r sigma = .error .valueError := by
  simp [d1E, pydiv, pylog, pysqrt, hK.ne', (div_pos hS hK).not_le, hT]

lemma d1E_err_sigma_zero (S K r T : ℝ) (hS : 0 < S) (hK : 0 < K) (hT : 0 ≤ T) :
    d1E S K T r 0 = .error .zeroDivisionError := by
  simp [d1E, pydiv, pylog, pysqrt, hK.ne', (div_pos hS hK).not_le, not_lt.mpr hT]

lemma d1E_err_time_zero (S K r sigma : ℝ) (hS : 0 < S) (hK : 0 < K) :
    d1E S K 0 r sigma = .error .zeroDivisionError := by
  simp [d1E, pydiv, pylog, pysqrt, hK.ne', (div_pos hS hK).not_le]

lemma priceE_error_of_d1E (S K T r sigma : ℝ) (e : PyErr)
    (h : d1E S K T r sigma = .error e) :
    priceE S K T r sigma = .error e := by
  simp [priceE, call_priceE, h]

end BlackScholesModel

/-! ## The `run_simulation` indicator/signal pipeline

A pandas `DataFrame` is modelled as an ordered association list of named
real-valued columns.  Reading an absent column raises `KeyError`;
assignment appends a new column (or replaces an existing one in place).

`Series.ewm(span=w).mean()` uses the pandas defaults, in particular
`adjust=True`: output `t` is the weighted average of inputs `0..t`
with weights `(1-α)^i` for lag `i`, where `α = 2 / (span + 1)`. -/

structure DataFrame where
  cols : List (String × List ℝ)

def DataFrame.get (df : DataFrame) (c : String) : Except PyErr (List ℝ) :=
  match df.cols.find? (fun p => p.1 == c) with
  | some p => .ok p.2
  | none => .error (.keyError c)

def DataFrame.set (df : DataFrame) (c : String) (v : List ℝ) : DataFrame :=
  if df.cols.any (fun p => p.1 == c) then
    ⟨df.cols.map (fun p => if p.1 == c then (c, v) else p)⟩
  else ⟨df.cols ++ [(c, v)]⟩

/-- Smoothing factor `α = 2 / (span + 1)` of `ewm(span=span)`. -/
noncomputable def emaAlpha (span : ℕ) : ℝ := 2 / ((span : ℝ) + 1)

/-- Pandas `Series.ewm(span=span).mean()` with the default `adjust=True`. -/
noncomputable def ewm_mean (span : ℕ) (xs : List ℝ) : List ℝ :=
  (List.range xs.length).map (fun t =>
    (Finset.range (t + 1)).sum
        (fun i => (1 - emaAlpha span) ^ i * xs.getD (t - i) 0) /
      (Finset.range (t + 1)).sum (fun i => (1 - emaAlpha span) ^ i))

/-- Elementwise `(a > b).astype(int)` on two aligned series. -/
noncomputable def seriesGt (a b : List ℝ) : List ℝ :=
  List.zipWith (fun x y => if x > y then (1:ℝ) else 0) a b

/-- The indicator-and-signal part of `run_simulation`, acting on the
`"Close"` column: assigns `"9EMA"` and `"200EMA"`, then assigns
`"Signal"` from the comparison `data["9EMA"] > data["20EMA"]`. -/
noncomputable def run_signal (closes : List ℝ) : Except PyErr DataFrame := do
  let df0 : DataFrame := ⟨[("Close", closes)]⟩
  let c1 ← df0.get "Close"
  let df1 := df0.set "9EMA" (ewm_mean 9 c1)
  let c2 ← df1.get "Close"
  let df2 := df1.set "200EMA" (ewm_mean 200 c2)
  let s ← df2.get "9EMA"
  let l ← df2.get "20EMA"
  Except.ok (df2.set "Signal" (seriesGt s l))

/-- The data frame after the two EMA columns have been assigned. -/
noncomputable def emaFrame (closes : List ℝ) : DataFrame :=
  ⟨[("Close", closes), ("9EMA", ewm_mean 9 closes),
    ("200EMA", ewm_mean 200 closes)]⟩

lemma emaFrame_eq_set_chain (closes : List ℝ) :
    ((⟨[("Close", closes)]⟩ : DataFrame).set "9EMA" (ewm_mean 9 closes)).set
      "200EMA" (ewm_mean 200 closes) = emaFrame closes := by
  simp [DataFrame.set]
  rfl

lemma emaFrame_cols (closes : List ℝ) :
    (emaFrame closes).cols = [("Close", closes), ("9EMA", ewm_mean 9 closes),
      ("200EMA", ewm_mean 200 closes)] := rfl

lemma emaFrame_get_absent (closes : List ℝ) :
    (emaFrame closes).get "20EMA" = .error (.keyError "20EMA") := by
  simp [DataFrame.get, emaFrame_cols, List.find?]

lemma run_signal_keyError (closes : List ℝ) :
    run_signal closes = .error (.keyError "20EMA") := by
  have h1 : (⟨[("Close", closes)]⟩ : DataFrame).get "Close" = .ok closes := by
    simp [DataFrame.get, List.find?]
  have h2 : (emaFrame closes).get "Close" = .ok closes := by
    simp [DataFrame.get, emaFrame_cols, List.find?]
  have h3 : (emaFrame closes).get "9EMA" = .ok (ewm_mean 9 closes) := by
    simp [DataFrame.get, emaFrame_cols, List.find?]
  have hstep : (⟨[("Close", closes)]⟩ : DataFrame).set "9EMA"
      (ewm_mean 9 closes) = DataFrame.mk [("Close", closes),
        ("9EMA", ewm_mean 9 closes)] := by
    simp [DataFrame.set]
  have hstep2 : (DataFrame.mk [("Close", closes), ("9EMA", ewm_mean 9 closes)]).get
      "Close" = .ok closes := by
    simp [DataFrame.get, List.find?]
  have hstep3 : (DataFrame.mk [("Close", closes),
      ("9EMA", ewm_mean 9 closes)]).set "200EMA" (ewm_mean 200 closes) =
      emaFrame closes := by
    simp [DataFrame.set]
    rfl
  simp only [run_signal, h1, exceptBind_ok, hstep, hstep2, hstep3, h3,
    emaFrame_get_absent, exceptBind_error]

lemma ewm_mean_length (span : ℕ) (xs : List ℝ) :
    (ewm_mean span xs).length = xs.length := by
  simp [ewm_mean]

lemma ewm_mean_getD (span : ℕ) (xs : List ℝ) (t : ℕ) (ht : t < xs.length) :
    (ewm_mean span xs).getD t 0 =
      (Finset.range (t + 1)).sum
          (fun i => (1 - emaAlpha span) ^ i * xs.getD (t - i) 0) /
        (Finset.range (t + 1)).sum (fun i => (1 - emaAlpha span) ^ i) := by
  unfold ewm_mean
  rw [List.getD_eq_getElem?_getD, List.getElem?_map, List.getElem?_range ht]
  rfl

lemma ewm_mean_causal (span : ℕ) (xs ys : List ℝ) (t : ℕ)
    (ht : t < xs.length) (ht2 : t < ys.length)
    (hpre : xs.take (t + 1) = ys.take (t + 1)) :
    (ewm_mean span xs).getD t 0 = (ewm_mean span ys).getD t 0 := by
  rw [ewm_mean_getD span xs t ht, ewm_mean_getD span ys t ht2]
  congr 1
  refine Finset.sum_congr rfl ?_
  intro i hi
  have hlt : t - i < t + 1 := by omega
  have hx : xs.getD (t - i) 0 = ys.getD (t - i) 0 := by
    rw [List.getD_eq_getElem?_getD, List.getD_eq_getElem?_getD,
      ← List.getElem?_take_of_lt (l := xs) hlt,
      ← List.getElem?_take_of_lt (l := ys) hlt, hpre]
  rw [hx]

/-- Modelled from the spec's wording for the signal engine: the standard
recursive EMA with smoothing factor `a`, seeded by the first available
price.  (This is the convention the claim asserts; it is compared against
the pandas semantics `ewm_mean` actually used by the code.) -/
noncomputable def emaRecAux (a y : ℝ) : List ℝ → List ℝ
  | [] => []
  | x :: xs => (a * x + (1 - a) * y) :: emaRecAux a (a * x + (1 - a) * y) xs

/-- Modelled from the spec's wording: recursive EMA series seeded by the
first available price. -/
noncomputable def emaRecursive (a : ℝ) : List ℝ → List ℝ
  | [] => []
  | x :: xs => x :: emaRecAux a x xs

/-! ## The strike sweep of `run_simulation` -/

/-- Python `range(-3, 4)`. -/
def intRange (a b : ℤ) : List ℤ := (List.range (b - a).toNat).map (fun j => a + j)

/-- `[current_price * (1 + i / 10) for i in range(-3, 4)]`. -/
noncomputable def strike_prices (S : ℝ) : List ℝ :=
  (intRange (-3) 4).map (fun i => S * (1 + (i : ℝ) / 10))

/-- `[BlackScholesModel(current_price, K, 30 / 365, 0.01, 0.2).call_price()
for K in strike_prices]`. -/
noncomputable def call_prices (S : ℝ) : List ℝ :=
  (strike_prices S).map
    (fun K => BlackScholesModel.call_price S K (30 / 365) 0.01 0.2)

/-- `[BlackScholesModel(current_price, K, 30 / 365, 0.01, 0.2).put_price()
for K in strike_prices]`. -/
noncomputable def put_prices (S : ℝ) : List ℝ :=
  (strike_prices S).map
    (fun K => BlackScholesModel.put_price S K (30 / 365) 0.01 0.2)

lemma intRange_eval : intRange (-3) 4 = [-3, -2, -1, 0, 1, 2, 3] := by
  simp [intRange, List.range_succ]

lemma strike_prices_eval (S : ℝ) :
    strike_prices S = [S * (1 + (-3 : ℝ) / 10), S * (1 + (-2 : ℝ) / 10),
      S * (1 + (-1 : ℝ) / 10), S * (1 + (0 : ℝ) / 10), S * (1 + (1 : ℝ) / 10),
      S * (1 + (2 : ℝ) / 10), S * (1 + (3 : ℝ) / 10)] := by
  rw [strike_prices, intRange_eval]
  norm_num

/-! ## Claims -/

open BlackScholesModel

/-- Claim C1: for every parameter set with spot, strike, time to expiry and
volatility positive, the price operation succeeds and returns
`call = S * N(d1) - K * exp (-r*T) * N(d2)` and
`put = K * exp (-r*T) * N(-d2) - S * N(-d1)`, where
`d1 = (ln (S/K) + (r + 0.5 * sigma^2) * T) / (sigma * sqrt T)` and
`d2 = d1 - sigma * sqrt T`, with `N` the standard normal CDF. -/
theorem bs_price_formula (S K T r sigma : ℝ) (hS : 0 < S) (hK : 0 < K)
    (hT : 0 < T) (hsig : 0 < sigma) :
    priceE S K T r sigma = Except.ok
      (S * normCdf ((Real.log (S / K) + (r + 0.5 * sigma ^ 2) * T) /
          (sigma * Real.sqrt T)) -
        K * Real.exp (-r * T) *
          normCdf ((Real.log (S / K) + (r + 0.5 * sigma ^ 2) * T) /
            (sigma * Real.sqrt T) - sigma * Real.sqrt T),
       K * Real.exp (-r * T) *
          normCdf (-((Real.log (S / K) + (r + 0.5 * sigma ^ 2) * T) /
            (sigma * Real.sqrt T) - sigma * Real.sqrt T)) -
        S * normCdf (-((Real.log (S / K) + (r + 0.5 * sigma ^ 2) * T) /
          (sigma * Real.sqrt T)))) := by
  rw [priceE_ok S K T r sigma hS hK hT hsig.ne']
  rfl

/-- Witness for C1 at spot 100, strike 100, 30/365 years, rate 0.01,
volatility 0.2. -/
theorem bs_price_formula_witness :
    (0:ℝ) < 100 ∧ (0:ℝ) < 30/365 ∧ (0:ℝ) < 0.2 ∧
    priceE 100 100 (30/365) 0.01 0.2 = Except.ok
      (100 * normCdf ((Real.log ((100:ℝ) / 100) + (0.01 + 0.5 * 0.2 ^ 2) * (30/365)) /
          (0.2 * Real.sqrt (30/365))) -
        100 * Real.exp (-0.01 * (30/365)) *
          normCdf ((Real.log ((100:ℝ) / 100) + (0.01 + 0.5 * 0.2 ^ 2) * (30/365)) /
            (0.2 * Real.sqrt (30/365)) - 0.2 * Real.sqrt (30/365)),
       100 * Real.exp (-0.01 * (30/365)) *
          normCdf (-((Real.log ((100:ℝ) / 100) + (0.01 + 0.5 * 0.2 ^ 2) * (30/365)) /
            (0.2 * Real.sqrt (30/365)) - 0.2 * Real.sqrt (30/365))) -
        100 * normCdf (-((Real.log ((100:ℝ) / 100) + (0.01 + 0.5 * 0.2 ^ 2) * (30/365)) /
          (0.2 * Real.sqrt (30/365))))) :=
  ⟨by norm_num, by norm_num, by norm_num,
    bs_price_formula 100 100 (30/365) 0.01 0.2 (by norm_num) (by norm_num)
      (by norm_num) (by norm_num)⟩

/-- Claim C4: put-call parity holds exactly over the reals for every valid
parameter set: `call - put = S - K * exp (-r * T)`. -/
theorem put_call_parity_holds (S K T r sigma : ℝ) (hS : 0 < S) (hK : 0 < K)
    (hT : 0 < T) (hsig : 0 < sigma) :
    call_price S K T r sigma - put_price S K T r sigma =
      S - K * Real.exp (-r * T) :=
  parity S K T r sigma

/-- Witness for C4 at spot 100, strike 90, one year, rate 0.01,
volatility 0.2. -/
theorem put_call_parity_holds_witness :
    (0:ℝ) < 100 ∧ (0:ℝ) < 90 ∧
    call_price 100 90 1 0.01 0.2 - put_price 100 90 1 0.01 0.2 =
      100 - 90 * Real.exp (-0.01 * 1) :=
  ⟨by norm_num, by norm_num,
    put_call_parity_holds 100 90 1 0.01 0.2 (by norm_num) (by norm_num)
      (by norm_num) (by norm_num)⟩

/-- Claim C2 (code bug witness): on the concrete non-empty close series
`[1, 2]`, the signal step of `run_simulation` raises
`KeyError: '20EMA'` instead of producing the claimed 0/1 signal series
aligned with the input. -/
theorem signal_keyError_on_sample :
    run_signal [1, 2] = Except.error (PyErr.keyError "20EMA") :=
  run_signal_keyError [1, 2]

/-- Claim C3: the signal column is derived by comparing the computed
`"9EMA"` column against a `"20EMA"` column that is never computed — the
frame after the indicator step holds exactly the columns
`Close`, `9EMA`, `200EMA` — so for every non-empty price series the signal
computation accesses an absent column and fails with `KeyError`. -/
theorem signal_compares_absent_column (closes : List ℝ) (h : closes ≠ []) :
    (emaFrame closes).cols.map Prod.fst = ["Close", "9EMA", "200EMA"] ∧
    (∀ p ∈ (emaFrame closes).cols, p.1 ≠ "20EMA") ∧
    (emaFrame closes).get "20EMA" = Except.error (PyErr.keyError "20EMA") ∧
    run_signal closes = Except.error (PyErr.keyError "20EMA") := by
  refine ⟨?_, ?_, emaFrame_get_absent closes, run_signal_keyError closes⟩
  · simp [emaFrame_cols]
  · intro p hp
    rw [emaFrame_cols] at hp
    simp only [List.mem_cons, List.not_mem_nil, or_false] at hp
    rcases hp with h1 | h1 | h1 <;> subst h1 <;> simp

/-- Witness for C3 on the one-element series `[1]`. -/
theorem signal_compares_absent_column_witness :
    ([1] : List ℝ) ≠ [] ∧
    run_signal [1] = Except.error (PyErr.keyError "20EMA") :=
  ⟨by simp, (signal_compares_absent_column [1] (by simp)).2.2.2⟩

/-- Claim C8 (counterexample): the failure on the empty series is not an
`InsufficientData` check — it is the very same missing-column `KeyError`
raised for a non-empty series. -/
theorem empty_series_cex :
    run_signal [] = Except.error (PyErr.keyError "20EMA") ∧
    run_signal [] = run_signal [1] := by
  refine ⟨run_signal_keyError [], ?_⟩
  rw [run_signal_keyError [], run_signal_keyError [1]]

/-- Claim C8 (amended): `computeSignal` applied to an empty price series
does fail, observably to the caller, but with the missing-column
`KeyError: '20EMA'` (the same error as for any input), not with an
emptiness-specific `InsufficientData` error. -/
theorem empty_series_amended :
    run_signal [] = Except.error (PyErr.keyError "20EMA") ∧
    (run_signal []).isOk = false := by
  refine ⟨run_signal_keyError [], ?_⟩
  rw [run_signal_keyError []]
  rfl

/-- Claim C5 (counterexample): the pricing code performs no input
validation.  With volatility `-1` (so volatility ≤ 0) and otherwise
benign inputs the operation succeeds, and with spot `-1` and strike `-1`
(both ≤ 0) it also succeeds, because `(-1)/(-1) = 1` is a valid logarithm
argument — contradicting the claim that every such input fails. -/
theorem price_invalid_inputs_cex :
    ((-1 : ℝ) ≤ 0 ∧ (priceE 1 1 1 0 (-1)).isOk = true) ∧
    ((-1 : ℝ) ≤ 0 ∧ (priceE (-1) (-1) 1 0 1).isOk = true) := by
  refine ⟨⟨by norm_num, ?_⟩, ⟨by norm_num, ?_⟩⟩
  · rw [priceE_ok 1 1 1 0 (-1) one_pos one_pos one_pos (by norm_num)]
    rfl
  · rw [priceE_ok_of (-1) (-1) 1 0 1 (by norm_num) (by norm_num) (by norm_num)
      (by rw [Real.sqrt_one]; norm_num)]
    rfl

/-- Claim C5 (amended): the price operation fails — with a Python
`ZeroDivisionError` or `ValueError`, the code having no dedicated
`InvalidParameter` error — exactly on the inputs the evaluation order
actually rejects: positive spot and strike with volatility = 0 or
timeToExpiry ≤ 0, and inputs where exactly one of spot/strike is
non-positive (a non-positive logarithm argument or a zero strike
denominator).  Inputs with volatility < 0 (and positive time), or with
both spot < 0 and strike < 0, are not rejected. -/
theorem price_invalid_inputs_amended (S K T r sigma : ℝ)
    (h : (0 < S ∧ 0 < K ∧ (sigma = 0 ∨ T ≤ 0)) ∨ (0 < S ∧ K ≤ 0) ∨
      (S ≤ 0 ∧ 0 < K)) :
    priceE S K T r sigma = Except.error PyErr.zeroDivisionError ∨
    priceE S K T r sigma = Except.error PyErr.valueError := by
  rcases h with ⟨hS, hK, hbad⟩ | ⟨hS, hK⟩ | ⟨hS, hK⟩
  · rcases lt_trichotomy T 0 with hT | hT | hT
    · exact Or.inr (priceE_error_of_d1E S K T r sigma _
        (d1E_err_sqrt S K T r sigma hS hK hT))
    · subst hT
      exact Or.inl (priceE_error_of_d1E S K 0 r sigma _
        (d1E_err_time_zero S K r sigma hS hK))
    · have hsig : sigma = 0 := by
        rcases hbad with h1 | h1
        · exact h1
        · exact absurd hT (not_lt.mpr h1)
      subst hsig
      exact Or.inl (priceE_error_of_d1E S K T r 0 _
        (d1E_err_sigma_zero S K r T hS hK hT.le))
  · rcases eq_or_lt_of_le hK with hK0 | hKneg
    · subst hK0
      exact Or.inl (priceE_error_of_d1E S 0 T r sigma _
        (d1E_err_strike_zero S T r sigma))
    · refine Or.inr (priceE_error_of_d1E S K T r sigma _
        (d1E_err_log S K T r sigma ?_ (ne_of_lt hKneg)))
      exact (div_neg_of_pos_of_neg hS hKneg).le
  · exact Or.inr (priceE_error_of_d1E S K T r sigma _
      (d1E_err_log S K T r sigma (div_nonpos_of_nonpos_of_nonneg hS hK.le)
        hK.ne'))

/-- Witness for the amended C5 at spot 1, strike 1, one year, rate 0,
volatility 0 (zero volatility is rejected by a `ZeroDivisionError`). -/
theorem price_invalid_inputs_amended_witness :
    priceE 1 1 1 0 0 = Except.error PyErr.zeroDivisionError ∨
    priceE 1 1 1 0 0 = Except.error PyErr.valueError :=
  price_invalid_inputs_amended 1 1 1 0 0
    (Or.inl ⟨by norm_num, by norm_num, Or.inl rfl⟩)

/-- Claim C6: for every positive spot, the sweep generates one strike per
offset as `spot * (1 + offset)` with offsets `-0.3, -0.2, ..., 0.3`
(`i / 10` for `i` in `range(-3, 4)`): exactly seven strikes, including
the at-the-money strike `spot` at offset `0`, in strictly ascending
order, with count equal to the number of offsets, and with every other
pricing parameter (`T = 30/365`, `r = 0.01`, `sigma = 0.2`) held fixed
across the swept call and put prices. -/
theorem strike_sweep_spec (S : ℝ) (hS : 0 < S) :
    strike_prices S = [S * (1 + (-3 : ℝ) / 10), S * (1 + (-2 : ℝ) / 10),
      S * (1 + (-1 : ℝ) / 10), S * (1 + (0 : ℝ) / 10), S * (1 + (1 : ℝ) / 10),
      S * (1 + (2 : ℝ) / 10), S * (1 + (3 : ℝ) / 10)] ∧
    (strike_prices S).length = 7 ∧
    (strike_prices S).length = (intRange (-3) 4).length ∧
    List.Chain' (fun a b : ℝ => a < b) (strike_prices S) ∧
    S ∈ strike_prices S ∧
    (∀ i, i < (strike_prices S).length →
      (call_prices S).getD i 0 =
        call_price S ((strike_prices S).getD i 0) (30 / 365) 0.01 0.2 ∧
      (put_prices S).getD i 0 =
        put_price S ((strike_prices S).getD i 0) (30 / 365) 0.01 0.2) := by
  refine ⟨strike_prices_eval S, ?_, ?_, ?_, ?_, ?_⟩
  · rw [strike_prices_eval]
    rfl
  · rw [strike_prices_eval, intRange_eval]
    rfl
  · rw [strike_prices_eval]
    simp only [List.chain'_cons, List.chain'_singleton, and_true]
    refine ⟨?_, ?_, ?_, ?_, ?_, ?_⟩ <;> nlinarith
  · rw [strike_prices_eval]
    have h : S = S * (1 + (0 : ℝ) / 10) := by ring
    rw [h]
    simp
  · intro i hi
    constructor
    · rw [call_prices, List.getD_eq_getElem?_getD, List.getElem?_map,
        List.getElem?_eq_getElem hi]
      simp [List.getD_eq_getElem?_getD, List.getElem?_eq_getElem hi]
    · rw [put_prices, List.getD_eq_getElem?_getD, List.getElem?_map,
        List.getElem?_eq_getElem hi]
      simp [List.getD_eq_getElem?_getD, List.getElem?_eq_getElem hi]

/-- Witness for C6 at spot 100. -/
theorem strike_sweep_spec_witness :
    (0:ℝ) < 100 ∧ (strike_prices 100).length = 7 ∧
    (100:ℝ) ∈ strike_prices 100 ∧
    List.Chain' (fun a b : ℝ => a < b) (strike_prices 100) :=
  ⟨by norm_num, (strike_sweep_spec 100 (by norm_num)).2.1,
    (strike_sweep_spec 100 (by norm_num)).2.2.2.2.1,
    (strike_sweep_spec 100 (by norm_num)).2.2.2.1⟩

/-- Claim C7 (counterexample): the code computes the EMA columns with
pandas `ewm(span=w).mean()` under the default `adjust=True`, which is the
truncated-weight average, not the recursive EMA seeded by the first
price.  On the series `[1, 2]` with span 9 (`α = 1/5`) pandas yields
`[1, 14/9]` while the recursive convention yields `[1, 6/5]`. -/
theorem ema_formula_cex :
    ewm_mean 9 [1, 2] = [1, 14/9] ∧
    emaRecursive (emaAlpha 9) [1, 2] = [1, 6/5] ∧
    ewm_mean 9 [1, 2] ≠ emaRecursive (emaAlpha 9) [1, 2] := by
  have h1 : ewm_mean 9 [1, 2] = [1, 14/9] := by
    unfold ewm_mean
    norm_num [List.range_succ, Finset.sum_range_succ, emaAlpha]
  have h2 : emaRecursive (emaAlpha 9) [1, 2] = [1, 6/5] := by
    norm_num [emaRecursive, emaRecAux, emaAlpha]
  refine ⟨h1, h2, ?_⟩
  rw [h1, h2]
  simp only [ne_eq, List.cons.injEq, and_true, true_and]
  norm_num

/-- Claim C7 (amended): the EMA columns are computed with smoothing
factor `α = 2/(window+1)` by the pandas `adjust=True` weighting — each
output `t` is `(Σ_{i≤t} (1-α)^i · x_{t-i}) / (Σ_{i≤t} (1-α)^i)` — one
output per input, and each EMA value depends only on prices at or before
its timestamp. -/
theorem ema_formula_amended (span : ℕ) (xs : List ℝ) (t : ℕ)
    (ht : t < xs.length) :
    (ewm_mean span xs).length = xs.length ∧
    (ewm_mean span xs).getD t 0 =
      (Finset.range (t + 1)).sum
          (fun i => (1 - emaAlpha span) ^ i * xs.getD (t - i) 0) /
        (Finset.range (t + 1)).sum (fun i => (1 - emaAlpha span) ^ i) ∧
    (∀ ys : List ℝ, t < ys.length → xs.take (t + 1) = ys.take (t + 1) →
      (ewm_mean span xs).getD t 0 = (ewm_mean span ys).getD t 0) :=
  ⟨ewm_mean_length span xs, ewm_mean_getD span xs t ht,
    fun ys ht2 hpre => ewm_mean_causal span xs ys t ht ht2 hpre⟩

/-- Witness for the amended C7: span 9 on `[1, 2]` at index 1, with the
prefix-dependence instantiated against `[1, 2, 5]`. -/
theorem ema_formula_amended_witness :
    (1 < ([1, 2] : List ℝ).length) ∧
    (ewm_mean 9 [1, 2]).length = ([1, 2] : List ℝ).length ∧
    (ewm_mean 9 [1, 2]).getD 1 0 = (ewm_mean 9 [1, 2, 5]).getD 1 0 :=
  ⟨by norm_num,
    (ema_formula_amended 9 [1, 2] 1 (by norm_num)).1,
    (ema_formula_amended 9 [1, 2] 1 (by norm_num)).2.2 [1, 2, 5]
      (by norm_num) rfl⟩

/-- Claim C9: for fixed valid spot, rate, volatility and time to expiry,
the call price is non-increasing and the put price is non-decreasing in
the strike: for strikes `0 < K1 < K2`,
`call K2 ≤ call K1` and `put K1 ≤ put K2`. -/
theorem strike_monotonicity (S T r sigma K1 K2 : ℝ) (hS : 0 < S)
    (hT : 0 < T) (hsig : 0 < sigma) (hK1 : 0 < K1) (hlt : K1 < K2) :
    call_price S K2 T r sigma ≤ call_price S K1 T r sigma ∧
    put_price S K1 T r sigma ≤ put_price S K2 T r sigma := by
  have hK2 : 0 < K2 := hK1.trans hlt
  constructor
  · exact (call_strictAntiOn S T r sigma hS hT hsig (mem_Ioi.mpr hK1)
      (mem_Ioi.mpr hK2) hlt).le
  · exact (put_strictMonoOn S T r sigma hS hT hsig (mem_Ioi.mpr hK1)
      (mem_Ioi.mpr hK2) hlt).le

/-- Witness for C9 at spot 100, strikes 90 < 110, one year, rate 0.01,
volatility 0.2. -/
theorem strike_monotonicity_witness :
    (0:ℝ) < 90 ∧ (90:ℝ) < 110 ∧
    call_price 100 110 1 0.01 0.2 ≤ call_price 100 90 1 0.01 0.2 ∧
    put_price 100 90 1 0.01 0.2 ≤ put_price 100 110 1 0.01 0.2 :=
  ⟨by norm_num, by norm_num,
    strike_monotonicity 100 1 0.01 0.2 90 110 (by norm_num) (by norm_num)
      (by norm_num) (by norm_num) (by norm_num)⟩

/-- Claim C10: for every valid parameter set the returned prices are
bounded: `0 ≤ call ≤ spot` and `0 ≤ put ≤ strike * exp (-r * T)`; in
particular neither price is negative. -/
theorem price_bounds (S K T r sigma : ℝ) (hS : 0 < S) (hK : 0 < K)
    (hT : 0 < T) (hsig : 0 < sigma) :
    0 ≤ call_price S K T r sigma ∧ call_price S K T r sigma ≤ S ∧
    0 ≤ put_price S K T r sigma ∧
    put_price S K T r sigma ≤ K * Real.exp (-r * T) :=
  ⟨call_price_nonneg S K T r sigma hS hK hT hsig,
    call_price_le_spot S K T r sigma hS hK hT hsig,
    put_price_nonneg S K T r sigma hS hK hT hsig,
    put_price_le_discounted_strike S K T r sigma hS hK hT hsig⟩

/-- Witness for C10 at spot 100, strike 90, one year, rate 0.01,
volatility 0.2. -/
theorem price_bounds_witness :
    (0:ℝ) < 100 ∧ (0:ℝ) < 90 ∧
    0 ≤ call_price 100 90 1 0.01 0.2 ∧ call_price 100 90 1 0.01 0.2 ≤ 100 ∧
    0 ≤ put_price 100 90 1 0.01 0.2 ∧
    put_price 100 90 1 0.01 0.2 ≤ 90 * Real.exp (-0.01 * 1) :=
  ⟨by norm_num, by norm_num,
    price_bounds 100 90 1 0.01 0.2 (by norm_num) (by norm_num) (by norm_num)
      (by norm_num)⟩
